import Mathlib

/-!
Shallow embedding of the layout and constraint engine of the
`usd_layout_creator` repository, together with theorems checking the
natural-language specification against it.

Conventions:
* Python integers are embedded as `Nat` (all quantities involved are
  non-negative) or `ℤ` where signs matter.
* Python floats are embedded as `ℚ`: every numeric computation the claims
  exercise is plain field arithmetic on decimal literals, so exact rational
  arithmetic is the faithful idealisation.
* The USD scene-graph calls (stage creation, prim references, file I/O) are
  glue around the layout arithmetic; the embedding keeps the arithmetic and
  the control flow that feeds it, and records each placement that the code
  would write into the scene as an explicit record.
-/

/-! ## Panel Configuration Solver
Embedding of `calculate_rear_panels_constrained` from
`src/LLM_chain/LLM_chain/retrieval_utils.py` (lines 5-23). -/

structure PanelConfig where
  a : Nat
  b : Nat
  spacing : Nat
deriving DecidableEq, Repr

/-- `a_max = (L_cabinet + 749) // 750` from the source. -/
def a_max (L : Nat) : Nat := (L + 749) / 750

/-- `b_max = (L_cabinet + 999) // 1000` from the source. -/
def b_max (L : Nat) : Nat := (L + 999) / 1000

/-- The `candidates` list comprehension: all `(a, b)` with
`0 ≤ a ≤ a_max`, `0 ≤ b ≤ b_max` and `a*750 + b*1000 ≥ L_cabinet`,
iterated with `a` outer and `b` inner, each carrying its `spacing`. -/
def candidates (L : Nat) : List PanelConfig :=
  (List.range (a_max L + 1)).flatMap fun a =>
    (List.range (b_max L + 1)).filterMap fun b =>
      if L ≤ a * 750 + b * 1000 then some ⟨a, b, a * 750 + b * 1000 - L⟩ else none

/-- One step of Python's `min(candidates, key=lambda c: c["spacing"])`:
keep the earlier element on ties, replace only on strictly smaller key. -/
def pickMin (acc : Option PanelConfig) (c : PanelConfig) : Option PanelConfig :=
  match acc with
  | none => some c
  | some best => if c.spacing < best.spacing then some c else some best

/-- `calculate_rear_panels_constrained`: returns `none` when no candidate
covers the length, else the first candidate of minimal spacing. -/
def calculate_rear_panels_constrained (L : Nat) : Option PanelConfig :=
  (candidates L).foldl pickMin none

/-! ## Linear Sequencer
Embedding of `sequence_cabinets` from `src/USD_modules/usd_scene_creator.py`
(lines 89-147): the first cabinet is placed at 0.0; each later cabinet at
`current_x + previous_half_width + width/2`; the return value is
`current_x + previous_half_width` after the loop. -/

/-- Loop body of `sequence_cabinets`, threading `current_x`,
`previous_half_width` and the loop index `i` (the code tests `i == 0`),
and collecting the x translation applied to each cabinet. -/
def sequenceCabinetsAux : ℚ → ℚ → Nat → List ℚ → List ℚ × ℚ
  | current_x, previous_half_width, _, [] => ([], current_x + previous_half_width)
  | current_x, previous_half_width, i, w :: ws =>
    let x : ℚ := if i = 0 then 0 else current_x + previous_half_width + w / 2
    ((sequenceCabinetsAux x (w / 2) (i + 1) ws).1.cons x,
      (sequenceCabinetsAux x (w / 2) (i + 1) ws).2)

/-- `sequence_cabinets` on the cabinets' x dimensions: returns the list of
x translations and the total width. -/
def sequence_cabinets (ws : List ℚ) : List ℚ × ℚ :=
  sequenceCabinetsAux 0 0 0 ws

/-- The tail of the loop (index ≥ 1), where the `i == 0` branch is dead. -/
def seqTail : ℚ → ℚ → List ℚ → List ℚ × ℚ
  | current_x, previous_half_width, [] => ([], current_x + previous_half_width)
  | current_x, previous_half_width, w :: ws =>
    let x : ℚ := current_x + previous_half_width + w / 2
    ((seqTail x (w / 2) ws).1.cons x, (seqTail x (w / 2) ws).2)

/-! ## Assembly data model
Embedding of `src/USD_modules/models.py`: `CabinetModel`,
`WorkbenchTopModel`, `PanelModel`, `PanelRowModel`, `PanelMatrixModel`,
`OtherAssetModel`, `CabinetAssembly` and `AssemblyModel` together with
their consistency checks.  Dimensions `(x, y, z)` are embedded as a triple
`ℚ × ℚ × ℚ`; per the code comments, `x` is the width, `y` the height and
`z` the depth. -/

structure CabinetModel where
  name : String
  asset_path : String
  dimensions : ℚ × ℚ × ℚ
  function : String
  type : String
  color : ℚ × ℚ × ℚ
  material : String
deriving DecidableEq

structure WorkbenchTopModel where
  name : String
  asset_path : String
  dimensions : ℚ × ℚ × ℚ
  function : String
  type : String
  color : ℚ × ℚ × ℚ
  material : String
deriving DecidableEq

structure PanelModel where
  length : ℤ
  asset_path : String
deriving DecidableEq

structure PanelRowModel where
  row_name : String
  panels : List PanelModel
deriving DecidableEq

/-- `total_row_length`: sum of the panel lengths of the row. -/
def PanelRowModel.total_row_length (r : PanelRowModel) : ℤ :=
  (r.panels.map (fun p => p.length)).sum

structure PanelMatrixModel where
  rows : List PanelRowModel
deriving DecidableEq

/-- `total_matrix_length`: 0 for no rows, else the maximum row length. -/
def PanelMatrixModel.total_matrix_length (m : PanelMatrixModel) : ℤ :=
  match m.rows with
  | [] => 0
  | r :: rs => (rs.map PanelRowModel.total_row_length).foldl max r.total_row_length

structure OtherAssetModel where
  name : String
  height : ℤ
  length : ℤ
  depth : ℤ
  width : ℤ
  asset_path : String
  position : String
deriving DecidableEq

structure CabinetAssembly where
  cabinets : List CabinetModel
deriving DecidableEq

/-- `CabinetAssembly.total_length`: sum of the cabinets' x dimensions. -/
def CabinetAssembly.total_length (a : CabinetAssembly) : ℚ :=
  (a.cabinets.map (fun c => c.dimensions.1)).sum

/-- The warnings the consistency checks produce, as structured records of
the data interpolated into the Python warning strings. -/
inductive ModelWarning where
  | topLengthMismatch (workbench_mm cabinet_mm : ℤ) : ModelWarning
  | heightMismatch (index : Nat) (cabinet_height reference_height : ℚ) : ModelWarning
  | depthMismatch (index : Nat) (cabinet_depth reference_depth : ℚ) : ModelWarning
deriving DecidableEq

/-- One iteration of the cabinet consistency loop: for the enumerated
cabinet `ic = (i, cabinet)`, a height warning if its y dimension differs
from the first cabinet's, then a depth warning if its z dimension does. -/
def cabinetWarnings (first : CabinetModel) (ic : Nat × CabinetModel) : List ModelWarning :=
  (if ic.2.dimensions.2.1 ≠ first.dimensions.2.1 then
    [ModelWarning.heightMismatch ic.1 ic.2.dimensions.2.1 first.dimensions.2.1]
  else []) ++
  (if ic.2.dimensions.2.2 ≠ first.dimensions.2.2 then
    [ModelWarning.depthMismatch ic.1 ic.2.dimensions.2.2 first.dimensions.2.2]
  else [])

/-- `CabinetAssembly.check_consistency`: `enumerate(self.cabinets[1:],
start=1)`, one height warning and one depth warning per mismatching
cabinet, comparing against the first cabinet. -/
def CabinetAssembly.check_consistency (a : CabinetAssembly) : List ModelWarning :=
  match a.cabinets with
  | [] => []
  | first :: rest => (List.enumFrom 1 rest).flatMap (cabinetWarnings first)

/-- Python 3 `round` to an integer: nearest, ties to even. -/
def pyRound (q : ℚ) : ℤ :=
  if q - ⌊q⌋ < 1 / 2 then ⌊q⌋
  else if 1 / 2 < q - ⌊q⌋ then ⌊q⌋ + 1
  else if ⌊q⌋ % 2 = 0 then ⌊q⌋ else ⌊q⌋ + 1

structure AssemblyModel where
  cabinets : CabinetAssembly
  workbench_top : WorkbenchTopModel
  other_assets : Option (List OtherAssetModel)
deriving DecidableEq

/-- `AssemblyModel.total_length` (computed field). -/
def AssemblyModel.total_length (m : AssemblyModel) : ℚ :=
  m.cabinets.total_length

/-- `adjust_workbench_top`: when the cabinet length and the workbench top
x dimension differ by more than 0.001, rebuild the workbench top with the
cabinet length as its x dimension and every other field unchanged. -/
def AssemblyModel.adjust_workbench_top (m : AssemblyModel) : AssemblyModel :=
  let cabinet_length := m.cabinets.total_length
  let workbench_length := m.workbench_top.dimensions.1
  if 1 / 1000 < |cabinet_length - workbench_length| then
    { m with
      workbench_top :=
        { name := m.workbench_top.name
          asset_path := m.workbench_top.asset_path
          dimensions := (cabinet_length, m.workbench_top.dimensions.2.1,
            m.workbench_top.dimensions.2.2)
          function := m.workbench_top.function
          type := m.workbench_top.type
          color := m.workbench_top.color
          material := m.workbench_top.material } }
  else m

/-- `AssemblyModel.check_consistency`: compare the rounded millimeter
lengths; on mismatch warn and run `adjust_workbench_top` (a mutation of
`self`, returned here as the second component); then append the cabinet
assembly's own consistency warnings. -/
def AssemblyModel.check_consistency (m : AssemblyModel) : List ModelWarning × AssemblyModel :=
  if pyRound (m.cabinets.total_length * 1000) ≠ pyRound (m.workbench_top.dimensions.1 * 1000) then
    (ModelWarning.topLengthMismatch (pyRound (m.workbench_top.dimensions.1 * 1000))
        (pyRound (m.cabinets.total_length * 1000)) ::
      (m.adjust_workbench_top).cabinets.check_consistency, m.adjust_workbench_top)
  else
    (m.cabinets.check_consistency, m)

/-- The pydantic `model_validator(mode='after')` hook
`validate_and_adjust_assembly`: constructing an `AssemblyModel` runs
`adjust_workbench_top` before the value is returned. -/
def AssemblyModel.mk_validated (cabinets : CabinetAssembly)
    (workbench_top : WorkbenchTopModel)
    (other_assets : Option (List OtherAssetModel)) : AssemblyModel :=
  AssemblyModel.adjust_workbench_top ⟨cabinets, workbench_top, other_assets⟩

/-- A one-cabinet assembly of width 1.0004 under a workbench top of width
1.0006: the rounded millimeter lengths are 1000 and 1001, but the raw
difference 0.0002 is below the 0.001 repair threshold. -/
def cabC4 : CabinetModel := ⟨"", "", (1.0004, 1, 1), "", "", (0, 0, 0), ""⟩

def wbC4 : WorkbenchTopModel := ⟨"", "", (1.0006, 1, 1), "", "", (0, 0, 0), ""⟩

def mC4 : AssemblyModel := ⟨⟨[cabC4]⟩, wbC4, none⟩

/-! ## Panel Grid Builder
Embedding of `rear_panel_matrix` from `src/USD_modules/usd_utils.py`
(lines 7-90).  The code iterates panel types (zipped with quantities), for
each type iterates `rows`, resetting `current_x` to 0 and recomputing
`current_y` from the row index and the running `max_width`, and for each
column places the panel at translate x `2 * current_x`, then advances
`current_x` by the panel width plus spacing.  Every placement the code
writes into the USD stage is recorded here as a `PanelPlacement`; panel
files are assumed to exist with their first boundable geometry spanning
`[0, width]` on the primary axis. -/

structure PanelPlacement where
  typeIdx : Nat
  row : Nat
  col : Nat
  x : ℚ
  y : ℚ
  width : ℚ
deriving DecidableEq, Repr

structure GridState where
  current_x : ℚ
  current_y : ℚ
  panel_count : Nat
  max_height : ℚ
  max_width : ℚ
  placements : List PanelPlacement
deriving DecidableEq, Repr

/-- The inner column loop body: update the running maxima, record the
translate `(2 * current_x, current_y)`, advance `current_x`. -/
def placePanel (w h spacing : ℚ) (t r : Nat) (s : GridState) (col : Nat) : GridState :=
  { s with
    max_height := max s.max_height h
    max_width := max s.max_width w
    placements := s.placements ++ [⟨t, r, col, 2 * s.current_x, s.current_y, w⟩]
    current_x := s.current_x + w + spacing
    panel_count := s.panel_count + 1 }

/-- The start of a row: reset `current_x` to 0 and set
`current_y = row * (max_width + spacing)` from the running `max_width`. -/
def resetRow (spacing : ℚ) (r : Nat) (s : GridState) : GridState :=
  { s with current_x := 0, current_y := (r : ℚ) * (s.max_width + spacing) }

/-- The row loop body: reset the cursor, then run the column loop. -/
def placeRow (w h spacing : ℚ) (q t : Nat) (s : GridState) (r : Nat) : GridState :=
  (List.range q).foldl (placePanel w h spacing t r) (resetRow spacing r s)

/-- The outer loop body for one enumerated panel type
`e = (typeIdx, ((width, height), quantity))`. -/
def placeType (rows : Nat) (spacing : ℚ) (s : GridState)
    (e : Nat × ((ℚ × ℚ) × Nat)) : GridState :=
  (List.range rows).foldl (placeRow e.2.1.1 e.2.1.2 spacing e.2.2 e.1) s

def initGridState : GridState := ⟨0, 0, 0, 0, 0, []⟩

/-- `rear_panel_matrix` over panel types given as `(width, height)`
bounding boxes with quantities. -/
def rear_panel_matrix (panel_types : List (ℚ × ℚ)) (quantities : List Nat)
    (rows : Nat) (spacing : ℚ) : GridState :=
  ((panel_types.zip quantities).enum).foldl (placeType rows spacing) initGridState

/-- The returned `total_width` is `current_x - spacing` after the loops. -/
def rear_panel_matrix_total_width (panel_types : List (ℚ × ℚ)) (quantities : List Nat)
    (rows : Nat) (spacing : ℚ) : ℚ :=
  (rear_panel_matrix panel_types quantities rows spacing).current_x - spacing

/-- Two placements overlap on the primary axis when their open intervals
`(x, x + width)` intersect. -/
def overlaps (p q : PanelPlacement) : Prop :=
  p.x < q.x + q.width ∧ q.x < p.x + p.width

/-! ## Top Fitter
Embedding of the top-scaling computation of `merge_usda_files` from
`src/USD_modules/usd_utils.py` (lines 93-206): line 189 computes
`length_scale = (total_length - spacing) / (top_length * 2)` and line 190
`width_scale = max_width / top_width`; the x scale applied to the top prim
is `length_scale`. -/

def length_scale (total_length spacing top_length : ℚ) : ℚ :=
  (total_length - spacing) / (top_length * 2)

def width_scale (max_width top_width : ℚ) : ℚ := max_width / top_width

/-! ## Lemmas and claim theorems -/

lemma pickMin_isSome (acc : Option PanelConfig) (c : PanelConfig) :
    (pickMin acc c).isSome := by
  cases acc with
  | none => rfl
  | some best =>
    simp only [pickMin]
    split <;> rfl

lemma foldl_pickMin_isSome (l : List PanelConfig) (acc : Option PanelConfig)
    (h : acc.isSome) : (l.foldl pickMin acc).isSome := by
  induction l generalizing acc with
  | nil => exact h
  | cons c l ih => exact ih _ (pickMin_isSome acc c)

lemma foldl_pickMin_mem (l : List PanelConfig) (acc : Option PanelConfig)
    (c : PanelConfig) (h : l.foldl pickMin acc = some c) :
    acc = some c ∨ c ∈ l := by
  induction l generalizing acc with
  | nil => exact Or.inl h
  | cons d l ih =>
    rcases ih (pickMin acc d) h with h1 | h1
    · cases acc with
      | none =>
        simp only [pickMin] at h1
        obtain rfl : d = c := by simpa using h1
        exact Or.inr (List.mem_cons_self _ _)
      | some best =>
        simp only [pickMin] at h1
        split at h1
        · obtain rfl : d = c := by simpa using h1
          exact Or.inr (List.mem_cons_self _ _)
        · exact Or.inl h1
    · exact Or.inr (List.mem_cons_of_mem d h1)

lemma foldl_pickMin_min (l : List PanelConfig) (acc : Option PanelConfig)
    (c : PanelConfig) (h : l.foldl pickMin acc = some c) :
    (∀ a0, acc = some a0 → c.spacing ≤ a0.spacing) ∧
      ∀ d ∈ l, c.spacing ≤ d.spacing := by
  induction l generalizing acc with
  | nil =>
    simp only [List.foldl_nil] at h
    subst h
    refine ⟨?_, ?_⟩
    · intro a0 ha
      obtain rfl : c = a0 := by simpa using ha
      exact le_rfl
    · simp
  | cons d l ih =>
    obtain ⟨hacc, hl⟩ := ih (pickMin acc d) h
    have hd : c.spacing ≤ d.spacing := by
      cases acc with
      | none => exact hacc d rfl
      | some best =>
        simp only [pickMin] at hacc
        split at hacc
        · exact hacc d rfl
        · rename_i hlt
          have := hacc best rfl
          omega
    refine ⟨?_, ?_⟩
    · intro a0 ha
      cases acc with
      | none => simp at ha
      | some best =>
        obtain rfl : best = a0 := by simpa using ha
        simp only [pickMin] at hacc
        split at hacc
        · rename_i hlt
          have := hacc d rfl
          omega
        · exact hacc _ rfl
    · intro e he
      rcases List.mem_cons.mp he with rfl | he
      · exact hd
      · exact hl e he

lemma mem_candidates (L : Nat) (c : PanelConfig) :
    c ∈ candidates L ↔
      c.a ≤ a_max L ∧ c.b ≤ b_max L ∧ L ≤ c.a * 750 + c.b * 1000 ∧
        c.spacing = c.a * 750 + c.b * 1000 - L := by
  constructor
  · intro h
    simp only [candidates, List.mem_flatMap, List.mem_filterMap, List.mem_range,
      Nat.lt_succ_iff] at h
    obtain ⟨a, ha, b, hb, hif⟩ := h
    split at hif
    · rename_i hle
      obtain rfl : (⟨a, b, a * 750 + b * 1000 - L⟩ : PanelConfig) = c := by
        simpa using hif
      exact ⟨ha, hb, hle, rfl⟩
    · simp at hif
  · rintro ⟨ha, hb, hle, hsp⟩
    simp only [candidates, List.mem_flatMap, List.mem_filterMap, List.mem_range,
      Nat.lt_succ_iff]
    refine ⟨c.a, ha, c.b, hb, ?_⟩
    rw [if_pos hle]
    cases c
    simp_all

lemma le_a_max_mul (L : Nat) : L ≤ a_max L * 750 := by
  have h := Nat.div_add_mod (L + 749) 750
  have h2 : (L + 749) % 750 < 750 := Nat.mod_lt _ (by norm_num)
  unfold a_max
  omega

lemma le_b_max_mul (L : Nat) : L ≤ b_max L * 1000 := by
  have h := Nat.div_add_mod (L + 999) 1000
  have h2 : (L + 999) % 1000 < 1000 := Nat.mod_lt _ (by norm_num)
  unfold b_max
  omega

lemma corner_a_mem (L : Nat) :
    (⟨a_max L, 0, a_max L * 750 + 0 * 1000 - L⟩ : PanelConfig) ∈ candidates L := by
  rw [mem_candidates]
  refine ⟨le_rfl, Nat.zero_le _, ?_, rfl⟩
  simpa using le_a_max_mul L

lemma corner_b_mem (L : Nat) :
    (⟨0, b_max L, 0 * 750 + b_max L * 1000 - L⟩ : PanelConfig) ∈ candidates L := by
  rw [mem_candidates]
  refine ⟨Nat.zero_le _, le_rfl, ?_, rfl⟩
  simpa using le_b_max_mul L

/-- C1: Panel Configuration Solver correctness. For every integer
`required_length ≥ 0` (embedded as `L : Nat`), the solver returns a
configuration whose covered length `a*750 + b*1000` is at least `L`, whose
`spacing` (overshoot) is exactly the covered length minus `L` (hence
non-negative), which minimises the overshoot over all non-negative integer
pairs covering `L`, and which is `(0, 0, 0)` when `L = 0`. -/
theorem solver_correct (L : Nat) :
    ∃ c : PanelConfig, calculate_rear_panels_constrained L = some c ∧
      L ≤ c.a * 750 + c.b * 1000 ∧
      c.spacing + L = c.a * 750 + c.b * 1000 ∧
      (∀ a b : Nat, L ≤ a * 750 + b * 1000 → c.spacing + L ≤ a * 750 + b * 1000) ∧
      (L = 0 → c = ⟨0, 0, 0⟩) := by
  have hsome : (calculate_rear_panels_constrained L).isSome := by
    unfold calculate_rear_panels_constrained
    have hmem := corner_a_mem L
    rcases hcl : candidates L with _ | ⟨d, ds⟩
    · rw [hcl] at hmem; simp at hmem
    · simp only [List.foldl_cons]
      exact foldl_pickMin_isSome _ _ (pickMin_isSome none d)
  obtain ⟨c, hc⟩ := Option.isSome_iff_exists.mp hsome
  have hcc : (candidates L).foldl pickMin none = some c := hc
  have hmem : c ∈ candidates L := by
    rcases foldl_pickMin_mem _ _ _ hcc with h | h
    · simp at h
    · exact h
  obtain ⟨hamax, hbmax, hcov, hsp⟩ := (mem_candidates L c).mp hmem
  have hmin := (foldl_pickMin_min _ _ _ hcc).2
  have hspL : c.spacing + L = c.a * 750 + c.b * 1000 := by omega
  refine ⟨c, hc, hcov, hspL, ?_, ?_⟩
  · intro a b hab
    by_cases ha : a ≤ a_max L
    · by_cases hb : b ≤ b_max L
      · have hcand : (⟨a, b, a * 750 + b * 1000 - L⟩ : PanelConfig) ∈ candidates L := by
          rw [mem_candidates]
          exact ⟨ha, hb, hab, rfl⟩
        have := hmin _ hcand
        simp only at this
        omega
      · have hcand := corner_b_mem L
        have hle := hmin _ hcand
        simp only at hle
        have hLb := le_b_max_mul L
        have hbge : b_max L + 1 ≤ b := by omega
        have : (b_max L + 1) * 1000 ≤ b * 1000 := Nat.mul_le_mul_right _ hbge
        omega
    · have hcand := corner_a_mem L
      have hle := hmin _ hcand
      simp only at hle
      have hLa := le_a_max_mul L
      have hage : a_max L + 1 ≤ a := by omega
      have : (a_max L + 1) * 750 ≤ a * 750 := Nat.mul_le_mul_right _ hage
      omega
  · intro hL0
    subst hL0
    have h0 : calculate_rear_panels_constrained 0 = some ⟨0, 0, 0⟩ := by decide
    rw [h0] at hc
    exact (Option.some.injEq ..).mp hc.symm

/-- Witness for `solver_correct` at the spec's scenario length 2500 mm. -/
theorem solver_correct_witness :
    ∃ c : PanelConfig, calculate_rear_panels_constrained 2500 = some c ∧
      2500 ≤ c.a * 750 + c.b * 1000 ∧
      c.spacing + 2500 = c.a * 750 + c.b * 1000 ∧
      (∀ a b : Nat, 2500 ≤ a * 750 + b * 1000 → c.spacing + 2500 ≤ a * 750 + b * 1000) ∧
      (2500 = 0 → c = ⟨0, 0, 0⟩) :=
  solver_correct 2500

lemma sequenceCabinetsAux_eq_seqTail (ws : List ℚ) :
    ∀ (cx ph : ℚ) (i : Nat), sequenceCabinetsAux cx ph (i + 1) ws = seqTail cx ph ws := by
  induction ws with
  | nil => intro cx ph i; rfl
  | cons w ws ih =>
    intro cx ph i
    simp only [sequenceCabinetsAux, seqTail, Nat.succ_ne_zero, if_neg, ih]
    norm_num

lemma seqTail_length (ws : List ℚ) : ∀ cx ph : ℚ, (seqTail cx ph ws).1.length = ws.length := by
  induction ws with
  | nil => intro cx ph; rfl
  | cons w ws ih => intro cx ph; simp [seqTail, ih]

lemma seqTail_spec (ws : List ℚ) : ∀ cx ph : ℚ,
    (∀ i : Nat, i + 1 < ws.length →
      (seqTail cx ph ws).1.getD (i + 1) 0 =
        (seqTail cx ph ws).1.getD i 0 + ws.getD i 0 / 2 + ws.getD (i + 1) 0 / 2) ∧
    (ws ≠ [] → (seqTail cx ph ws).1.getD 0 0 = cx + ph + ws.getD 0 0 / 2 ∧
      (seqTail cx ph ws).2 =
        (seqTail cx ph ws).1.getD (ws.length - 1) 0 + ws.getD (ws.length - 1) 0 / 2) := by
  induction ws with
  | nil =>
    intro cx ph
    exact ⟨fun i hi => by simp at hi, fun h => absurd rfl h⟩
  | cons w ws ih =>
    intro cx ph
    obtain ⟨ihrec, ihne⟩ := ih (cx + ph + w / 2) (w / 2)
    constructor
    · intro i hi
      cases i with
      | zero =>
        have hne : ws ≠ [] := by
          intro hws; rw [hws] at hi; simp at hi
        obtain ⟨hhead, _⟩ := ihne hne
        simp only [seqTail, List.cons, List.getD_cons_succ, List.getD_cons_zero]
        rw [hhead]
      | succ j =>
        have hj : j + 1 < ws.length := by
          simp only [List.length_cons] at hi; omega
        have := ihrec j hj
        simp only [seqTail, List.cons, List.getD_cons_succ]
        exact this
    · intro _
      rcases hws : ws with _ | ⟨v, vs⟩
      · subst hws
        constructor
        · simp [seqTail]
        · simp [seqTail]
      · rw [← hws]
        have hne : ws ≠ [] := by rw [hws]; simp
        obtain ⟨hhead, htot⟩ := ihne hne
        constructor
        · simp only [seqTail, List.cons, List.getD_cons_zero]
        · have hlen : ws.length - 1 + 1 = ws.length := by
            rw [hws]; simp
          simp only [seqTail, List.cons, List.length_cons, Nat.add_sub_cancel]
          rw [htot]
          have h1 : (w :: ws).getD ws.length 0 = ws.getD (ws.length - 1) 0 := by
            rw [← hlen, List.getD_cons_succ, hlen]
          have h2 : ((seqTail (cx + ph + w / 2) (w / 2) ws).1.cons
              (cx + ph + w / 2)).getD ws.length 0 =
              (seqTail (cx + ph + w / 2) (w / 2) ws).1.getD (ws.length - 1) 0 := by
            rw [← hlen, List.getD_cons_succ, hlen]
          rw [← hlen, List.getD_cons_succ, List.getD_cons_succ, hlen]

/-- C3: Linear Sequencer placement. For every list of component widths
(all non-negative), the first component is placed at offset 0, each
subsequent component `i` at `offset(i-1) + w(i-1)/2 + w(i)/2`, and the
returned total length is `offset(last) + w(last)/2`; the empty list gives
no placements and total 0. -/
theorem sequencer_placement (ws : List ℚ) (h0 : ∀ w ∈ ws, 0 ≤ w) :
    (sequence_cabinets ws).1.length = ws.length ∧
    (ws = [] → sequence_cabinets ws = ([], 0)) ∧
    (ws ≠ [] → (sequence_cabinets ws).1.getD 0 0 = 0) ∧
    (∀ i : Nat, i + 1 < ws.length →
      (sequence_cabinets ws).1.getD (i + 1) 0 =
        (sequence_cabinets ws).1.getD i 0 + ws.getD i 0 / 2 + ws.getD (i + 1) 0 / 2) ∧
    (ws ≠ [] → (sequence_cabinets ws).2 =
      (sequence_cabinets ws).1.getD (ws.length - 1) 0 + ws.getD (ws.length - 1) 0 / 2) := by
  clear h0
  rcases hws : ws with _ | ⟨w, vs⟩
  · refine ⟨rfl, fun _ => by norm_num [sequence_cabinets, sequenceCabinetsAux], ?_, ?_, ?_⟩
    · intro h; exact absurd rfl h
    · intro i hi; simp at hi
    · intro h; exact absurd rfl h
  · have hunf : sequence_cabinets (w :: vs) =
        ((seqTail 0 (w / 2) vs).1.cons 0, (seqTail 0 (w / 2) vs).2) := by
      simp only [sequence_cabinets, sequenceCabinetsAux, sequenceCabinetsAux_eq_seqTail]
      norm_num
    obtain ⟨trec, tne⟩ := seqTail_spec vs 0 (w / 2)
    refine ⟨?_, ?_, ?_, ?_, ?_⟩
    · rw [hunf]; simp [seqTail_length]
    · intro h; simp at h
    · intro _; rw [hunf]; simp
    · intro i hi
      cases i with
      | zero =>
        have hne : vs ≠ [] := by
          intro hvs; rw [hvs] at hi; simp at hi
        obtain ⟨hhead, _⟩ := tne hne
        rw [hunf]
        simp only [List.cons, List.getD_cons_succ, List.getD_cons_zero]
        rw [hhead]
      | succ j =>
        have hj : j + 1 < vs.length := by
          simp only [List.length_cons] at hi; omega
        have := trec j hj
        rw [hunf]
        simp only [List.cons, List.getD_cons_succ]
        exact this
    · intro _
      rcases hvs : vs with _ | ⟨v, us⟩
      · norm_num [sequence_cabinets, sequenceCabinetsAux]
      · rw [← hvs]
        have hne : vs ≠ [] := by rw [hvs]; simp
        obtain ⟨_, htot⟩ := tne hne
        have hlen : vs.length - 1 + 1 = vs.length := by rw [hvs]; simp
        rw [hunf]
        simp only [List.cons, List.length_cons, Nat.add_sub_cancel]
        rw [htot, ← hlen, List.getD_cons_succ, List.getD_cons_succ, hlen]

/-- Witness for `sequencer_placement` at the concrete width list `[1, 2]`. -/
theorem sequencer_placement_witness :
    (∀ w ∈ [(1 : ℚ), 2], 0 ≤ w) ∧
    ((sequence_cabinets [(1 : ℚ), 2]).1.length = [(1 : ℚ), 2].length ∧
    ([(1 : ℚ), 2] = [] → sequence_cabinets [(1 : ℚ), 2] = ([], 0)) ∧
    ([(1 : ℚ), 2] ≠ [] → (sequence_cabinets [(1 : ℚ), 2]).1.getD 0 0 = 0) ∧
    (∀ i : Nat, i + 1 < [(1 : ℚ), 2].length →
      (sequence_cabinets [(1 : ℚ), 2]).1.getD (i + 1) 0 =
        (sequence_cabinets [(1 : ℚ), 2]).1.getD i 0 + [(1 : ℚ), 2].getD i 0 / 2 +
          [(1 : ℚ), 2].getD (i + 1) 0 / 2) ∧
    ([(1 : ℚ), 2] ≠ [] → (sequence_cabinets [(1 : ℚ), 2]).2 =
      (sequence_cabinets [(1 : ℚ), 2]).1.getD ([(1 : ℚ), 2].length - 1) 0 +
        [(1 : ℚ), 2].getD ([(1 : ℚ), 2].length - 1) 0 / 2)) :=
  ⟨by norm_num, sequencer_placement [1, 2] (by norm_num)⟩

/-- C7 counterexample: sequencing two components of width 0.717 gives
offsets `[0, 0.717]` but total length 1.0755, not the claimed 1.0745. -/
theorem sequencer_scenario_counterexample :
    sequence_cabinets [(0.717 : ℚ), 0.717] = ([0, 0.717], 1.0755) ∧
      (1.0755 : ℚ) ≠ 1.0745 := by
  constructor
  · norm_num [sequence_cabinets, sequenceCabinetsAux]
  · norm_num

/-- C7 amended: sequencing two components of width 0.717 gives offsets
`[0, 0.717]` and total length `0.717 + 0.717/2 = 1.0755`. -/
theorem sequencer_scenario_amended :
    sequence_cabinets [(0.717 : ℚ), 0.717] = ([0, 0.717], 1.0755) := by
  norm_num [sequence_cabinets, sequenceCabinetsAux]

lemma pyRound_of_lt_half (q : ℚ) (z : ℤ) (h1 : (z : ℚ) ≤ q) (h2 : q < z + 1)
    (h3 : q - z < 1 / 2) : pyRound q = z := by
  have hf : ⌊q⌋ = z := Int.floor_eq_iff.mpr ⟨h1, by exact_mod_cast h2⟩
  unfold pyRound
  rw [hf, if_pos h3]

lemma pyRound_of_gt_half (q : ℚ) (z : ℤ) (h1 : (z : ℚ) ≤ q) (h2 : q < z + 1)
    (h3 : 1 / 2 < q - z) : pyRound q = z + 1 := by
  have hf : ⌊q⌋ = z := Int.floor_eq_iff.mpr ⟨h1, by exact_mod_cast h2⟩
  unfold pyRound
  rw [hf, if_neg (by linarith), if_pos h3]

/-- The fields of the assembly untouched by `adjust_workbench_top`. -/
lemma adjust_workbench_top_frame (m : AssemblyModel) :
    (m.adjust_workbench_top).cabinets = m.cabinets ∧
    (m.adjust_workbench_top).other_assets = m.other_assets ∧
    (m.adjust_workbench_top).workbench_top.name = m.workbench_top.name ∧
    (m.adjust_workbench_top).workbench_top.asset_path = m.workbench_top.asset_path ∧
    (m.adjust_workbench_top).workbench_top.dimensions.2.1 = m.workbench_top.dimensions.2.1 ∧
    (m.adjust_workbench_top).workbench_top.dimensions.2.2 = m.workbench_top.dimensions.2.2 ∧
    (m.adjust_workbench_top).workbench_top.function = m.workbench_top.function ∧
    (m.adjust_workbench_top).workbench_top.type = m.workbench_top.type ∧
    (m.adjust_workbench_top).workbench_top.color = m.workbench_top.color ∧
    (m.adjust_workbench_top).workbench_top.material = m.workbench_top.material := by
  simp only [AssemblyModel.adjust_workbench_top]
  split <;> simp

/-- After `adjust_workbench_top` the workbench top x dimension and the
cabinet total length differ by at most 0.001. -/
lemma adjust_workbench_top_close (m : AssemblyModel) :
    |(m.adjust_workbench_top).workbench_top.dimensions.1 -
      (m.adjust_workbench_top).cabinets.total_length| ≤ 1 / 1000 := by
  simp only [AssemblyModel.adjust_workbench_top]
  split
  · simp
  · rename_i h
    rw [abs_sub_comm]
    simpa using le_of_not_lt h

/-- `check_consistency` returns either the model itself or its adjusted
form as the post-state. -/
lemma check_consistency_snd (m : AssemblyModel) :
    (m.check_consistency).2 = m ∨ (m.check_consistency).2 = m.adjust_workbench_top := by
  unfold AssemblyModel.check_consistency
  split
  · exact Or.inr rfl
  · exact Or.inl rfl

/-- C9: the repair performed by the validator changes at most the workbench
top's x (primary-axis) dimension: the cabinet list, the optional other
assets, and every other workbench-top field — name, asset path, the y and z
dimension components, function, type, color, material — are identical
before and after `adjust_workbench_top` and across `check_consistency`'s
returned model. -/
theorem validator_mutation_frame (m : AssemblyModel) :
    ((m.adjust_workbench_top).cabinets = m.cabinets ∧
     (m.adjust_workbench_top).other_assets = m.other_assets ∧
     (m.adjust_workbench_top).workbench_top.name = m.workbench_top.name ∧
     (m.adjust_workbench_top).workbench_top.asset_path = m.workbench_top.asset_path ∧
     (m.adjust_workbench_top).workbench_top.dimensions.2.1 = m.workbench_top.dimensions.2.1 ∧
     (m.adjust_workbench_top).workbench_top.dimensions.2.2 = m.workbench_top.dimensions.2.2 ∧
     (m.adjust_workbench_top).workbench_top.function = m.workbench_top.function ∧
     (m.adjust_workbench_top).workbench_top.type = m.workbench_top.type ∧
     (m.adjust_workbench_top).workbench_top.color = m.workbench_top.color ∧
     (m.adjust_workbench_top).workbench_top.material = m.workbench_top.material) ∧
    ((m.check_consistency).2.cabinets = m.cabinets ∧
     (m.check_consistency).2.other_assets = m.other_assets ∧
     (m.check_consistency).2.workbench_top.name = m.workbench_top.name ∧
     (m.check_consistency).2.workbench_top.asset_path = m.workbench_top.asset_path ∧
     (m.check_consistency).2.workbench_top.dimensions.2.1 = m.workbench_top.dimensions.2.1 ∧
     (m.check_consistency).2.workbench_top.dimensions.2.2 = m.workbench_top.dimensions.2.2 ∧
     (m.check_consistency).2.workbench_top.function = m.workbench_top.function ∧
     (m.check_consistency).2.workbench_top.type = m.workbench_top.type ∧
     (m.check_consistency).2.workbench_top.color = m.workbench_top.color ∧
     (m.check_consistency).2.workbench_top.material = m.workbench_top.material) := by
  refine ⟨adjust_workbench_top_frame m, ?_⟩
  rcases check_consistency_snd m with h | h
  · rw [h]
    exact ⟨rfl, rfl, rfl, rfl, rfl, rfl, rfl, rfl, rfl, rfl⟩
  · rw [h]
    exact adjust_workbench_top_frame m

/-- C10: every `AssemblyModel` built through the pydantic constructor (which
runs the `validate_and_adjust_assembly` model validator, i.e.
`adjust_workbench_top`) already satisfies
`|workbench_top.dimensions[0] - cabinets.total_length| ≤ 0.001` before any
call to `check_consistency`. -/
theorem construction_adjust_invariant (cs : CabinetAssembly) (wb : WorkbenchTopModel)
    (oa : Option (List OtherAssetModel)) :
    |(AssemblyModel.mk_validated cs wb oa).workbench_top.dimensions.1 -
      (AssemblyModel.mk_validated cs wb oa).cabinets.total_length| ≤ 1 / 1000 :=
  adjust_workbench_top_close ⟨cs, wb, oa⟩

lemma mem_flatMap_cabinetWarnings (first : CabinetModel) (l : List CabinetModel) :
    ∀ (k : Nat) (w : ModelWarning),
      w ∈ (List.enumFrom k l).flatMap (cabinetWarnings first) ↔
        ∃ i, ∃ h : i < l.length,
          ((w = ModelWarning.heightMismatch (k + i) l[i].dimensions.2.1
              first.dimensions.2.1 ∧ l[i].dimensions.2.1 ≠ first.dimensions.2.1) ∨
           (w = ModelWarning.depthMismatch (k + i) l[i].dimensions.2.2
              first.dimensions.2.2 ∧ l[i].dimensions.2.2 ≠ first.dimensions.2.2)) := by
  induction l with
  | nil =>
    intro k w
    simp [List.enumFrom]
  | cons c cs ih =>
    intro k w
    have hcons : List.enumFrom k (c :: cs) = (k, c) :: List.enumFrom (k + 1) cs := rfl
    rw [hcons, List.flatMap_cons, List.mem_append]
    constructor
    · rintro (hin | hin)
      · unfold cabinetWarnings at hin
        rcases List.mem_append.mp hin with h | h
        · split at h
          · rename_i hne
            obtain rfl : w = ModelWarning.heightMismatch k c.dimensions.2.1
                first.dimensions.2.1 := by simpa using h
            exact ⟨0, by simp, Or.inl ⟨by simp, by simpa using hne⟩⟩
          · simp at h
        · split at h
          · rename_i hne
            obtain rfl : w = ModelWarning.depthMismatch k c.dimensions.2.2
                first.dimensions.2.2 := by simpa using h
            exact ⟨0, by simp, Or.inr ⟨by simp, by simpa using hne⟩⟩
          · simp at h
      · obtain ⟨i, hi, hw⟩ := (ih (k + 1) w).mp hin
        refine ⟨i + 1, by simpa using hi, ?_⟩
        have harith : k + 1 + i = k + (i + 1) := by omega
        rcases hw with ⟨hweq, hne⟩ | ⟨hweq, hne⟩
        · exact Or.inl ⟨by rw [hweq, harith]; simp, by simpa using hne⟩
        · exact Or.inr ⟨by rw [hweq, harith]; simp, by simpa using hne⟩
    · rintro ⟨i, hi, hw⟩
      cases i with
      | zero =>
        left
        unfold cabinetWarnings
        rw [List.mem_append]
        rcases hw with ⟨hweq, hne⟩ | ⟨hweq, hne⟩
        · left
          simp only [List.getElem_cons_zero] at hweq hne
          rw [if_pos hne, hweq]
          simp
        · right
          simp only [List.getElem_cons_zero] at hweq hne
          rw [if_pos hne, hweq]
          simp
      | succ j =>
        right
        have hj : j < cs.length := by simpa using hi
        refine (ih (k + 1) w).mpr ⟨j, hj, ?_⟩
        have harith : k + (j + 1) = k + 1 + j := by omega
        rcases hw with ⟨hweq, hne⟩ | ⟨hweq, hne⟩
        · exact Or.inl ⟨by rw [hweq, harith]; simp, by simpa using hne⟩
        · exact Or.inr ⟨by rw [hweq, harith]; simp, by simpa using hne⟩

lemma topLength_not_mem_cabinet_warnings (a : CabinetAssembly) (wmm cmm : ℤ) :
    ModelWarning.topLengthMismatch wmm cmm ∉ a.check_consistency := by
  rcases a with ⟨_ | ⟨first, rest⟩⟩
  · simp [CabinetAssembly.check_consistency]
  · intro hmem
    have h := (mem_flatMap_cabinetWarnings first rest 1 _).mp hmem
    obtain ⟨i, hi, hw⟩ := h
    rcases hw with ⟨hweq, _⟩ | ⟨hweq, _⟩ <;> simp at hweq

/-- C5 counterexample: in a two-cabinet run where the second cabinet's
height (and only its height) differs, the single homogeneity warning
references index 1 — the 0-based position of that cabinet in the list —
not index 2; and a cabinet differing in both height and depth produces two
warnings, not one. -/
theorem validator_rule2_counterexample :
    CabinetAssembly.check_consistency ⟨[⟨"", "", (1, 1, 1), "", "", (0, 0, 0), ""⟩,
        ⟨"", "", (1, 2, 1), "", "", (0, 0, 0), ""⟩]⟩ =
      [ModelWarning.heightMismatch 1 2 1] ∧
    CabinetAssembly.check_consistency ⟨[⟨"", "", (1, 1, 1), "", "", (0, 0, 0), ""⟩,
        ⟨"", "", (1, 2, 3), "", "", (0, 0, 0), ""⟩]⟩ =
      [ModelWarning.heightMismatch 1 2 1, ModelWarning.depthMismatch 1 3 1] ∧
    (1 : Nat) ≠ 2 := by
  refine ⟨?_, ?_, by norm_num⟩
  · norm_num [CabinetAssembly.check_consistency, cabinetWarnings, List.enumFrom]
  · norm_num [CabinetAssembly.check_consistency, cabinetWarnings, List.enumFrom]

/-- C5 amended: a warning is emitted for each cabinet after the first and
each attribute (height, depth) that differs from the first cabinet's,
carrying that cabinet's 0-based position in the run (the second cabinet has
index 1) and both the cabinet's and the reference value; when only the
second cabinet's height differs, exactly one warning results and it
references index 1. -/
theorem validator_rule2_amended :
    (∀ (first : CabinetModel) (rest : List CabinetModel) (w : ModelWarning),
      w ∈ CabinetAssembly.check_consistency ⟨first :: rest⟩ ↔
        ∃ i, ∃ h : i < rest.length,
          ((w = ModelWarning.heightMismatch (i + 1) rest[i].dimensions.2.1
              first.dimensions.2.1 ∧ rest[i].dimensions.2.1 ≠ first.dimensions.2.1) ∨
           (w = ModelWarning.depthMismatch (i + 1) rest[i].dimensions.2.2
              first.dimensions.2.2 ∧ rest[i].dimensions.2.2 ≠ first.dimensions.2.2))) ∧
    (∀ c0 c1 : CabinetModel, c1.dimensions.2.1 ≠ c0.dimensions.2.1 →
      c1.dimensions.2.2 = c0.dimensions.2.2 →
      CabinetAssembly.check_consistency ⟨[c0, c1]⟩ =
        [ModelWarning.heightMismatch 1 c1.dimensions.2.1 c0.dimensions.2.1]) := by
  constructor
  · intro first rest w
    have h := mem_flatMap_cabinetWarnings first rest 1 w
    have hcheck : CabinetAssembly.check_consistency ⟨first :: rest⟩ =
        (List.enumFrom 1 rest).flatMap (cabinetWarnings first) := rfl
    rw [hcheck, h]
    constructor
    · rintro ⟨i, hi, hw⟩
      refine ⟨i, hi, ?_⟩
      have harith : 1 + i = i + 1 := by omega
      rw [harith] at hw
      exact hw
    · rintro ⟨i, hi, hw⟩
      refine ⟨i, hi, ?_⟩
      have harith : 1 + i = i + 1 := by omega
      rw [harith]
      exact hw
  · intro c0 c1 hh hd
    have hcheck : CabinetAssembly.check_consistency ⟨[c0, c1]⟩ =
        cabinetWarnings c0 (1, c1) ++ [] := rfl
    rw [hcheck, List.append_nil]
    unfold cabinetWarnings
    rw [if_pos hh, if_neg (by simpa using hd)]
    simp

/-- Witness for `validator_rule2_amended` at a concrete two-cabinet run. -/
theorem validator_rule2_amended_witness :
    ((⟨"", "", (1, 2, 1), "", "", (0, 0, 0), ""⟩ : CabinetModel).dimensions.2.1 ≠
      (⟨"", "", (1, 1, 1), "", "", (0, 0, 0), ""⟩ : CabinetModel).dimensions.2.1) ∧
    ((⟨"", "", (1, 2, 1), "", "", (0, 0, 0), ""⟩ : CabinetModel).dimensions.2.2 =
      (⟨"", "", (1, 1, 1), "", "", (0, 0, 0), ""⟩ : CabinetModel).dimensions.2.2) ∧
    CabinetAssembly.check_consistency ⟨[⟨"", "", (1, 1, 1), "", "", (0, 0, 0), ""⟩,
        ⟨"", "", (1, 2, 1), "", "", (0, 0, 0), ""⟩]⟩ =
      [ModelWarning.heightMismatch 1
        (⟨"", "", (1, 2, 1), "", "", (0, 0, 0), ""⟩ : CabinetModel).dimensions.2.1
        (⟨"", "", (1, 1, 1), "", "", (0, 0, 0), ""⟩ : CabinetModel).dimensions.2.1] :=
  ⟨by norm_num, by norm_num,
    validator_rule2_amended.2 ⟨"", "", (1, 1, 1), "", "", (0, 0, 0), ""⟩
      ⟨"", "", (1, 2, 1), "", "", (0, 0, 0), ""⟩ (by norm_num) (by norm_num)⟩

lemma mC4_total : mC4.cabinets.total_length = 1.0004 := by
  norm_num [mC4, cabC4, CabinetAssembly.total_length]

lemma mC4_wb : mC4.workbench_top.dimensions.1 = 1.0006 := rfl

lemma pyRound_mC4_cab : pyRound (mC4.cabinets.total_length * 1000) = 1000 := by
  rw [mC4_total]
  exact pyRound_of_lt_half _ 1000 (by norm_num) (by norm_num) (by norm_num)

lemma pyRound_mC4_wb : pyRound (mC4.workbench_top.dimensions.1 * 1000) = 1001 := by
  rw [mC4_wb]
  have h := pyRound_of_gt_half ((1.0006 : ℚ) * 1000) 1000 (by norm_num) (by norm_num)
    (by norm_num)
  rw [h]
  norm_num

lemma mC4_adjust : mC4.adjust_workbench_top = mC4 := by
  simp only [AssemblyModel.adjust_workbench_top]
  rw [if_neg]
  rw [mC4_total, mC4_wb]
  rw [show (1.0004 : ℚ) - 1.0006 = -0.0002 by norm_num, abs_neg,
    abs_of_nonneg (by norm_num : (0 : ℚ) ≤ 0.0002)]
  norm_num

lemma mC4_check : mC4.check_consistency =
    ([ModelWarning.topLengthMismatch 1001 1000], mC4) := by
  have hcond : pyRound (mC4.cabinets.total_length * 1000) ≠
      pyRound (mC4.workbench_top.dimensions.1 * 1000) := by
    rw [pyRound_mC4_cab, pyRound_mC4_wb]
    norm_num
  simp only [AssemblyModel.check_consistency, if_pos hcond, pyRound_mC4_cab,
    pyRound_mC4_wb, mC4_adjust]
  have hwarn : mC4.cabinets.check_consistency = [] := rfl
  rw [hwarn]
  norm_num

/-- C4 counterexample: `mC4` arises unchanged from the validated pydantic
constructor; `check_consistency` on it emits the top-length warning (the
rounded mm lengths 1001 and 1000 differ), yet after the claimed repair the
rounded millimeter width of the top (1001) still differs from the rounded
millimeter total length of the run (1000), because the raw difference
0.0002 never exceeds the 0.001 threshold inside `adjust_workbench_top`. -/
theorem validator_rule1_counterexample :
    AssemblyModel.mk_validated ⟨[cabC4]⟩ wbC4 none = mC4 ∧
    (mC4.check_consistency).1 = [ModelWarning.topLengthMismatch 1001 1000] ∧
    pyRound ((mC4.check_consistency).2.workbench_top.dimensions.1 * 1000) = 1001 ∧
    pyRound ((mC4.check_consistency).2.cabinets.total_length * 1000) = 1000 ∧
    (1001 : ℤ) ≠ 1000 := by
  refine ⟨?_, ?_, ?_, ?_, by norm_num⟩
  · exact mC4_adjust
  · rw [mC4_check]
  · rw [mC4_check]
    exact pyRound_mC4_wb
  · rw [mC4_check]
    exact pyRound_mC4_cab

/-- C4 amended: `check_consistency` emits a top-length warning iff the
rounded millimeter lengths differ; in that case the repair guarantees that
afterwards the top width and the run length differ by at most 0.001 (1 mm),
and the top width becomes exactly the run length whenever the pre-repair
difference exceeded 0.001 — but when the raw difference was already within
0.001 the rounded millimeter values may still differ by one. -/
theorem validator_rule1_amended (m : AssemblyModel) :
    ((∃ wmm cmm : ℤ, ModelWarning.topLengthMismatch wmm cmm ∈ (m.check_consistency).1) ↔
      pyRound (m.workbench_top.dimensions.1 * 1000) ≠
        pyRound (m.cabinets.total_length * 1000)) ∧
    (pyRound (m.workbench_top.dimensions.1 * 1000) ≠
        pyRound (m.cabinets.total_length * 1000) →
      |(m.check_consistency).2.workbench_top.dimensions.1 -
        (m.check_consistency).2.cabinets.total_length| ≤ 1 / 1000 ∧
      (1 / 1000 < |m.cabinets.total_length - m.workbench_top.dimensions.1| →
        (m.check_consistency).2.workbench_top.dimensions.1 =
          (m.check_consistency).2.cabinets.total_length)) := by
  by_cases hcond : pyRound (m.cabinets.total_length * 1000) ≠
      pyRound (m.workbench_top.dimensions.1 * 1000)
  · have hfst : (m.check_consistency).1 =
        ModelWarning.topLengthMismatch (pyRound (m.workbench_top.dimensions.1 * 1000))
          (pyRound (m.cabinets.total_length * 1000)) ::
          (m.adjust_workbench_top).cabinets.check_consistency := by
      simp only [AssemblyModel.check_consistency, if_pos hcond]
    have hsnd : (m.check_consistency).2 = m.adjust_workbench_top := by
      simp only [AssemblyModel.check_consistency, if_pos hcond]
    refine ⟨⟨fun _ => Ne.symm hcond, fun _ =>
      ⟨_, _, by rw [hfst]; exact List.mem_cons_self _ _⟩⟩, fun _ => ⟨?_, ?_⟩⟩
    · rw [hsnd]
      exact adjust_workbench_top_close m
    · intro hgt
      rw [hsnd]
      have hcab : (m.adjust_workbench_top).cabinets = m.cabinets :=
        (adjust_workbench_top_frame m).1
      rw [hcab]
      simp only [AssemblyModel.adjust_workbench_top, if_pos hgt]
  · rw [not_not] at hcond
    have hfst : (m.check_consistency).1 = m.cabinets.check_consistency := by
      simp only [AssemblyModel.check_consistency]
      rw [if_neg (fun hne => hne hcond)]
    refine ⟨⟨fun hex => ?_, fun hne => absurd hcond.symm hne⟩,
      fun hne => absurd hcond.symm hne⟩
    obtain ⟨wmm, cmm, hmem⟩ := hex
    rw [hfst] at hmem
    exact absurd hmem (topLength_not_mem_cabinet_warnings _ _ _)

/-- Witness for `validator_rule1_amended` at the concrete assembly `mC4`,
whose rounded millimeter lengths differ. -/
theorem validator_rule1_amended_witness :
    (pyRound (mC4.workbench_top.dimensions.1 * 1000) ≠
      pyRound (mC4.cabinets.total_length * 1000)) ∧
    |(mC4.check_consistency).2.workbench_top.dimensions.1 -
      (mC4.check_consistency).2.cabinets.total_length| ≤ 1 / 1000 :=
  ⟨by rw [pyRound_mC4_wb, pyRound_mC4_cab]; norm_num,
    ((validator_rule1_amended mC4).2
      (by rw [pyRound_mC4_wb, pyRound_mC4_cab]; norm_num)).1⟩

lemma placePanel_foldl_spec (w h spacing : ℚ) (t r : Nat) :
    ∀ (n : Nat) (s : GridState),
      ((List.range n).foldl (placePanel w h spacing t r) s).current_x =
        s.current_x + n * (w + spacing) ∧
      ((List.range n).foldl (placePanel w h spacing t r) s).current_y = s.current_y ∧
      ∀ p ∈ ((List.range n).foldl (placePanel w h spacing t r) s).placements,
        p ∈ s.placements ∨
          (p.typeIdx = t ∧ p.row = r ∧ p.col < n ∧ p.width = w ∧
            p.x = 2 * (s.current_x + (p.col : ℚ) * (w + spacing)) ∧ p.y = s.current_y) := by
  intro n
  induction n with
  | zero =>
    intro s
    simp
  | succ n ih =>
    intro s
    obtain ⟨ihx, ihy, ihp⟩ := ih s
    rw [List.range_succ, List.foldl_append, List.foldl_cons, List.foldl_nil]
    refine ⟨?_, ?_, ?_⟩
    · simp only [placePanel, ihx]
      push_cast
      ring
    · simp only [placePanel, ihy]
    · intro p hp
      simp only [placePanel, List.mem_append, List.mem_singleton] at hp
      rcases hp with hp | hp
      · rcases ihp p hp with hin | ⟨h1, h2, h3, h4, h5, h6⟩
        · exact Or.inl hin
        · exact Or.inr ⟨h1, h2, by omega, h4, h5, h6⟩
      · subst hp
        refine Or.inr ⟨rfl, rfl, Nat.lt_succ_self n, rfl, ?_, ihy⟩
        show 2 * ((List.range n).foldl (placePanel w h spacing t r) s).current_x =
          2 * (s.current_x + ((n : Nat) : ℚ) * (w + spacing))
        rw [ihx]

lemma placeRow_foldl_spec (w h spacing : ℚ) (q t : Nat) :
    ∀ (rows : Nat) (s : GridState),
      ∀ p ∈ ((List.range rows).foldl (placeRow w h spacing q t) s).placements,
        p ∈ s.placements ∨
          (p.typeIdx = t ∧ p.row < rows ∧ p.col < q ∧ p.width = w ∧
            p.x = 2 * ((p.col : ℚ) * (w + spacing))) := by
  intro rows
  induction rows with
  | zero =>
    intro s p hp
    exact Or.inl (by simpa using hp)
  | succ rows ih =>
    intro s p hp
    rw [List.range_succ, List.foldl_append, List.foldl_cons, List.foldl_nil] at hp
    simp only [placeRow] at hp
    obtain ⟨_, _, hmem⟩ := placePanel_foldl_spec w h spacing t rows q
      (resetRow spacing rows ((List.range rows).foldl (placeRow w h spacing q t) s))
    rcases hmem p hp with hin | ⟨h1, h2, h3, h4, h5, h6⟩
    · have hin1 : p ∈ ((List.range rows).foldl (placeRow w h spacing q t) s).placements := hin
      rcases ih s p hin1 with hin2 | ⟨g1, g2, g3, g4, g5⟩
      · exact Or.inl hin2
      · exact Or.inr ⟨g1, by omega, g3, g4, g5⟩
    · refine Or.inr ⟨h1, by omega, h3, h4, ?_⟩
      rw [h5]
      have hcx : (resetRow spacing rows ((List.range rows).foldl
          (placeRow w h spacing q t) s)).current_x = 0 := rfl
      rw [hcx]
      ring

lemma placeType_foldl_spec (rowCount : Nat) (spacing : ℚ) :
    ∀ (l : List (Nat × ((ℚ × ℚ) × Nat))) (s : GridState),
      ∀ p ∈ (l.foldl (placeType rowCount spacing) s).placements,
        p ∈ s.placements ∨
          ∃ e ∈ l, p.typeIdx = e.1 ∧ p.row < rowCount ∧ p.col < e.2.2 ∧
            p.width = e.2.1.1 ∧ p.x = 2 * ((p.col : ℚ) * (e.2.1.1 + spacing)) := by
  intro l
  induction l with
  | nil =>
    intro s p hp
    exact Or.inl (by simpa using hp)
  | cons e l ih =>
    intro s p hp
    rw [List.foldl_cons] at hp
    rcases ih (placeType rowCount spacing s e) p hp with hin | ⟨d, hd, hrest⟩
    · simp only [placeType] at hin
      rcases placeRow_foldl_spec e.2.1.1 e.2.1.2 spacing e.2.2 e.1 rowCount s p hin with
        hin2 | ⟨h1, h2, h3, h4, h5⟩
      · exact Or.inl hin2
      · exact Or.inr ⟨e, List.mem_cons_self _ _, h1, h2, h3, h4, h5⟩
    · exact Or.inr ⟨d, List.mem_cons_of_mem e hd, hrest⟩

lemma mem_enumFrom_spec {α : Type} (l : List α) :
    ∀ (k : Nat) (e : Nat × α), e ∈ List.enumFrom k l →
      ∃ i, ∃ h : i < l.length, e = (k + i, l[i]) := by
  induction l with
  | nil =>
    intro k e he
    simp [List.enumFrom] at he
  | cons c cs ih =>
    intro k e he
    have hcons : List.enumFrom k (c :: cs) = (k, c) :: List.enumFrom (k + 1) cs := rfl
    rw [hcons, List.mem_cons] at he
    rcases he with rfl | he
    · exact ⟨0, by simp, by simp⟩
    · obtain ⟨i, hi, rfl⟩ := ih (k + 1) e he
      refine ⟨i + 1, by simpa using hi, ?_⟩
      have : k + 1 + i = k + (i + 1) := by omega
      rw [this]
      simp

/-- Every placement `rear_panel_matrix` produces belongs to a panel type
with index below both list lengths, a column below that type's quantity,
a row below the row count, the type's width, and translate x equal to
`2 * (col * (width + spacing))`. -/
lemma rear_panel_matrix_placements_spec (ps : List (ℚ × ℚ)) (qs : List Nat)
    (rows : Nat) (spacing : ℚ) :
    ∀ p ∈ (rear_panel_matrix ps qs rows spacing).placements,
      p.typeIdx < ps.length ∧ p.typeIdx < qs.length ∧
      p.col < qs.getD p.typeIdx 0 ∧ p.row < rows ∧
      p.width = (ps.getD p.typeIdx (0, 0)).1 ∧
      p.x = 2 * ((p.col : ℚ) * ((ps.getD p.typeIdx (0, 0)).1 + spacing)) := by
  intro p hp
  unfold rear_panel_matrix at hp
  rcases placeType_foldl_spec rows spacing _ initGridState p hp with h | h
  · simp [initGridState] at h
  · obtain ⟨e, he, ht, hr, hc, hwd, hx⟩ := h
    obtain ⟨i, hi, rfl⟩ := mem_enumFrom_spec _ 0 e he
    have hzlen : (ps.zip qs).length = min ps.length qs.length := List.length_zip ps qs
    have hip : i < ps.length := by omega
    have hiq : i < qs.length := by omega
    have hzip : (ps.zip qs)[i] = (ps[i], qs[i]) := List.getElem_zip
    simp only [Nat.zero_add] at ht
    have hq : qs.getD p.typeIdx 0 = qs[i] := by
      rw [ht, List.getD_eq_getElem qs 0 hiq]
    have hpw : ps.getD p.typeIdx (0, 0) = ps[i] := by
      rw [ht, List.getD_eq_getElem ps (0, 0) hip]
    rw [hzip] at hc hwd hx
    refine ⟨by omega, by omega, ?_, hr, ?_, ?_⟩
    · rw [hq]
      exact hc
    · rw [hpw]
      exact hwd
    · rw [hpw]
      exact hx

lemma range_one : List.range 1 = [0] := rfl

lemma range_two : List.range 2 = [0, 1] := rfl

lemma grid_two_types_eval :
    (rear_panel_matrix [((1 : ℚ), (1 : ℚ)), ((1 : ℚ), (1 : ℚ))] [1, 1] 1 0).placements =
      [⟨0, 0, 0, 0, 0, 1⟩, ⟨1, 0, 0, 0, 0, 1⟩] := by
  norm_num [rear_panel_matrix, placeType, placeRow, placePanel, resetRow, initGridState,
    range_one, range_two, List.foldl_cons, List.foldl_nil,
    List.enum, List.enumFrom, List.zip, List.zipWith]

lemma grid_two_cols_eval :
    (rear_panel_matrix [((1 : ℚ), (1 : ℚ))] [2] 1 0).placements =
      [⟨0, 0, 0, 0, 0, 1⟩, ⟨0, 0, 1, 2, 0, 1⟩] := by
  norm_num [rear_panel_matrix, placeType, placeRow, placePanel, resetRow, initGridState,
    range_one, range_two, List.foldl_cons, List.foldl_nil,
    List.enum, List.enumFrom, List.zip, List.zipWith]

lemma grid_one_eval :
    (rear_panel_matrix [((1 : ℚ), (1 : ℚ))] [1] 1 0).placements = [⟨0, 0, 0, 0, 0, 1⟩] := by
  norm_num [rear_panel_matrix, placeType, placeRow, placePanel, resetRow, initGridState,
    range_one, range_two, List.foldl_cons, List.foldl_nil,
    List.enum, List.enumFrom, List.zip, List.zipWith]

/-- C6 counterexample: with two panel types of width 1, quantity 1 each,
one row and spacing 0, the builder resets `current_x` for each panel type
and places both panels at x = 0 in row 0 — the same row and layer — with
identical, fully overlapping primary-axis intervals `[0, 1]`. -/
theorem grid_overlap_counterexample :
    (rear_panel_matrix [((1 : ℚ), (1 : ℚ)), ((1 : ℚ), (1 : ℚ))] [1, 1] 1 0).placements =
      [⟨0, 0, 0, 0, 0, 1⟩, ⟨1, 0, 0, 0, 0, 1⟩] ∧
    (⟨0, 0, 0, 0, 0, 1⟩ : PanelPlacement).row = (⟨1, 0, 0, 0, 0, 1⟩ : PanelPlacement).row ∧
    (⟨0, 0, 0, 0, 0, 1⟩ : PanelPlacement).y = (⟨1, 0, 0, 0, 0, 1⟩ : PanelPlacement).y ∧
    (⟨0, 0, 0, 0, 0, 1⟩ : PanelPlacement) ≠ (⟨1, 0, 0, 0, 0, 1⟩ : PanelPlacement) ∧
    overlaps ⟨0, 0, 0, 0, 0, 1⟩ ⟨1, 0, 0, 0, 0, 1⟩ := by
  refine ⟨grid_two_types_eval, rfl, rfl, ?_, ?_⟩
  · intro h
    exact absurd (congrArg PanelPlacement.typeIdx h) (by norm_num)
  · constructor <;> norm_num

lemma no_overlap_cols (w spacing : ℚ) (hw0 : 0 ≤ w) (hs : 0 ≤ spacing)
    (c1 c2 : Nat) (hlt : c1 < c2)
    (h1 : 2 * ((c1 : ℚ) * (w + spacing)) < 2 * ((c2 : ℚ) * (w + spacing)) + w)
    (h2 : 2 * ((c2 : ℚ) * (w + spacing)) < 2 * ((c1 : ℚ) * (w + spacing)) + w) : False := by
  have hc : (c1 : ℚ) + 1 ≤ (c2 : ℚ) := by exact_mod_cast hlt
  nlinarith

/-- C6 amended: two distinct placements of the same panel type (hence at
distinct columns) in the same row never have overlapping primary-axis
intervals when all widths and the spacing are non-negative; the original
claim fails across different panel types, whose placements restart at
x = 0 in every row (see the counterexample). -/
theorem grid_non_overlap_amended (ps : List (ℚ × ℚ)) (qs : List Nat) (rows : Nat)
    (spacing : ℚ) (hw : ∀ wh ∈ ps, 0 ≤ wh.1) (hs : 0 ≤ spacing)
    (p1 p2 : PanelPlacement)
    (h1 : p1 ∈ (rear_panel_matrix ps qs rows spacing).placements)
    (h2 : p2 ∈ (rear_panel_matrix ps qs rows spacing).placements)
    (ht : p1.typeIdx = p2.typeIdx) (hrow : p1.row = p2.row) (hc : p1.col ≠ p2.col) :
    ¬ overlaps p1 p2 := by
  clear hrow
  obtain ⟨hlen1, _, _, _, hW1, hX1⟩ := rear_panel_matrix_placements_spec ps qs rows spacing p1 h1
  obtain ⟨_, _, _, _, hW2, hX2⟩ := rear_panel_matrix_placements_spec ps qs rows spacing p2 h2
  rw [← ht] at hW2 hX2
  have hw0 : 0 ≤ (ps.getD p1.typeIdx (0, 0)).1 := by
    have hmem : ps.getD p1.typeIdx (0, 0) ∈ ps := by
      rw [List.getD_eq_getElem ps (0, 0) hlen1]
      exact List.getElem_mem hlen1
    exact hw _ hmem
  intro hov
  obtain ⟨ha, hb⟩ := hov
  rw [hX1, hX2, hW2] at ha
  rw [hX1, hX2, hW1] at hb
  rcases lt_or_gt_of_ne hc with hlt | hlt
  · exact no_overlap_cols _ _ hw0 hs _ _ hlt ha hb
  · exact no_overlap_cols _ _ hw0 hs _ _ hlt hb ha

/-- Witness for `grid_non_overlap_amended`: one panel type of width 1,
quantity 2, one row, spacing 0; the two placements sit at x = 0 and x = 2
and do not overlap. -/
theorem grid_non_overlap_amended_witness :
    (∀ wh ∈ [((1 : ℚ), (1 : ℚ))], 0 ≤ wh.1) ∧ (0 : ℚ) ≤ 0 ∧
    (⟨0, 0, 0, 0, 0, 1⟩ : PanelPlacement) ∈
      (rear_panel_matrix [((1 : ℚ), (1 : ℚ))] [2] 1 0).placements ∧
    (⟨0, 0, 1, 2, 0, 1⟩ : PanelPlacement) ∈
      (rear_panel_matrix [((1 : ℚ), (1 : ℚ))] [2] 1 0).placements ∧
    ¬ overlaps ⟨0, 0, 0, 0, 0, 1⟩ ⟨0, 0, 1, 2, 0, 1⟩ :=
  ⟨by norm_num, le_rfl,
    by rw [grid_two_cols_eval]; exact List.mem_cons_self _ _,
    by rw [grid_two_cols_eval]; exact List.mem_cons_of_mem _ (List.mem_cons_self _ _),
    grid_non_overlap_amended [((1 : ℚ), (1 : ℚ))] [2] 1 0 (by norm_num) le_rfl _ _
      (by rw [grid_two_cols_eval]; exact List.mem_cons_self _ _)
      (by rw [grid_two_cols_eval]; exact List.mem_cons_of_mem _ (List.mem_cons_self _ _))
      rfl rfl (by norm_num)⟩

/-- C8: a panel type with quantity zero contributes no placement (every
placement's type has a positive quantity) and the builder runs without any
failure path in the embedding; an empty panel-type list produces no
placements, and the empty `PanelMatrixModel` has `total_matrix_length` 0. -/
theorem grid_degenerate :
    (∀ (ps : List (ℚ × ℚ)) (qs : List Nat) (rows : Nat) (spacing : ℚ)
      (p : PanelPlacement), p ∈ (rear_panel_matrix ps qs rows spacing).placements →
        0 < qs.getD p.typeIdx 0) ∧
    (∀ (rows : Nat) (spacing : ℚ),
      (rear_panel_matrix [] [] rows spacing).placements = []) ∧
    PanelMatrixModel.total_matrix_length ⟨[]⟩ = 0 := by
  refine ⟨?_, ?_, rfl⟩
  · intro ps qs rows spacing p hp
    have h := rear_panel_matrix_placements_spec ps qs rows spacing p hp
    omega
  · intro rows spacing
    rfl

/-- Witness for `grid_degenerate`: the single placement produced by one
panel type of quantity 1 indeed has a positive quantity at its type. -/
theorem grid_degenerate_witness :
    ((⟨0, 0, 0, 0, 0, 1⟩ : PanelPlacement) ∈
      (rear_panel_matrix [((1 : ℚ), (1 : ℚ))] [1] 1 0).placements) ∧
    0 < ([1] : List Nat).getD ((⟨0, 0, 0, 0, 0, 1⟩ : PanelPlacement).typeIdx) 0 :=
  ⟨by rw [grid_one_eval]; exact List.mem_cons_self _ _,
    grid_degenerate.1 [((1 : ℚ), (1 : ℚ))] [1] 1 0 ⟨0, 0, 0, 0, 0, 1⟩
      (by rw [grid_one_eval]; exact List.mem_cons_self _ _)⟩

/-- C2: evaluation of the code's top-fit scale at the spec scenario. With
`run_length = total_length - spacing = 1.4` and `top.width = top_length = 1`,
the code computes primary-axis scale `0.7 = run_length / (2 · top.width)`,
not the `1.4 = run_length / top.width` that the claim (and the code's own
comment, "Scale the top model to match the total length") requires: the
scaled top spans half the run. -/
theorem topfit_code_eval :
    length_scale 1.4 0 1 = 0.7 ∧ (0.7 : ℚ) ≠ 1.4 ∧
    length_scale 1.4 0 1 * 1 = 0.7 := by
  refine ⟨?_, by norm_num, ?_⟩
  · norm_num [length_scale]
  · norm_num [length_scale]
